import Mathlib

/-!
Shallow embedding of the riegeli chunk-encoding core: the `Object` lifecycle
(src/riegeli/base/object.cc), the simple chunk encoder
(src/riegeli/chunk_encoding/simple_encoder.cc), the chunk decoder
(src/riegeli/chunk_encoding/chunk_decoder.h), and the buffered byte stream
writers (src/riegeli/bytes/backward_writer.h, src/riegeli/bytes/writer.cc).
Machine integers are modelled as `Nat` with explicit bounds checks where the
source checks them; strings of bytes are `List Nat`.
-/

namespace Riegeli

/-! ## Object lifecycle (src/riegeli/base/object.cc)

The C++ status word is an atomic `uintptr_t` holding either the sentinel
`kHealthy()`, the sentinel `kClosedSuccessfully()`, or a pointer to a
heap-allocated `FailedStatus` record carrying a message and a `closed` flag.
We embed it as a sum type, as suggested by the repository spec for languages
without tagged pointers. -/

/-- Status word of `riegeli::Object`: healthy, closed-successfully, or failed
with a message and a flag telling whether the failed object was closed. -/
inductive ObjStatus where
  | healthy
  | closedSuccessfully
  | failed (message : String) (closed : Bool)
deriving DecidableEq

/-- Embedding of `Object::healthy()`: the status word equals `kHealthy()`. -/
def healthyB : ObjStatus → Bool
  | .healthy => true
  | _ => false

/-- Embedding of `Object::closed()`: the status word equals
`kClosedSuccessfully()` or points to a `FailedStatus` with `closed` set. -/
def closedB : ObjStatus → Bool
  | .healthy => false
  | .closedSuccessfully => true
  | .failed _ c => c

/-- Embedding of `Object::Fail(message)` (object.cc lines 64-77): a
compare-exchange from `kHealthy()` to a new `FailedStatus`; if the status was
already set, the new status loses and nothing changes. -/
def failObj (message : String) : ObjStatus → ObjStatus
  | .healthy => .failed message false
  | st => st

/-- Embedding of `Object::Message()` (object.cc lines 90-102). -/
def messageOf : ObjStatus → String
  | .healthy => "Healthy"
  | .closedSuccessfully => "Closed"
  | .failed m _ => m

/-- Effect on the status word of running the virtual `Done()`: per the
assertions in `Object::Close`, `Done()` never marks the object closed, and the
only status mutation it may perform is `Object::Fail`, so it is embedded as a
list of failure messages applied in order. -/
def runFails (dones : List String) (st : ObjStatus) : ObjStatus :=
  dones.foldl (fun s m => failObj m s) st

/-- Embedding of `Object::Close()` (object.cc lines 33-62), returning the new
status and the boolean result. `dones` is the sequence of `Fail` calls that the
virtual `Done()` performs. The `default` case with a `closed` record returns
false without running `Done()`; otherwise control falls through to the
`kHealthy()` case which runs `Done()`, re-reads the status, and marks it
closed. -/
def closeObj (dones : List String) (st : ObjStatus) : ObjStatus × Bool :=
  match st with
  | .failed m true => (.failed m true, false)
  | .closedSuccessfully => (.closedSuccessfully, true)
  | .failed m false =>
      match runFails dones (.failed m false) with
      | .failed m2 _ => (.failed m2 true, false)
      | s => (s, false)
  | .healthy =>
      match runFails dones .healthy with
      | .healthy => (.closedSuccessfully, true)
      | .failed m2 _ => (.failed m2 true, false)
      | .closedSuccessfully => (.closedSuccessfully, true)

/-- Operations that can hit the status word of a live `Object`: a `Fail` call
with a message, or a `Close` whose `Done()` performs the given `Fail`s. -/
inductive ObjOp where
  | fail (message : String)
  | close (dones : List String)
deriving DecidableEq

/-- Single step of the `Object` status word under an operation. -/
def stepObj (st : ObjStatus) : ObjOp → ObjStatus
  | .fail m => failObj m st
  | .close dones => (closeObj dones st).1

/-- Run of a sequence of operations against the `Object` status word. -/
def runObj (ops : List ObjOp) (st : ObjStatus) : ObjStatus :=
  ops.foldl stepObj st

/-! ## Varint codec

Modelled from the spec: `WriteVarint64` lives in riegeli/bytes/writer_utils.h,
which is not under src/; the spec describes it as LEB128 encoding of unsigned
integers (spec section 2, "Varint codec: LEB128 encode/decode"). -/

/-- Modelled from the spec: LEB128 encoding of an unsigned integer, low 7 bits
per byte, continuation bit 0x80 on all bytes but the last. Fuel-indexed to
keep the recursion structural. -/
def writeVarint64F : Nat → Nat → List Nat
  | 0, n => [n % 128]
  | fuel + 1, n =>
      if n < 128 then [n] else (n % 128 + 128) :: writeVarint64F fuel (n / 128)

/-- Modelled from the spec: LEB128 encoding of a `uint64_t`; ten output bytes
always suffice for values below 2^70, so in particular for every `uint64_t`. -/
def writeVarint64 (n : Nat) : List Nat := writeVarint64F 10 n

/-- Modelled from the spec: LEB128 decoding of one varint from the front of a
byte list, returning the value and the remaining bytes. -/
def readVarint : List Nat → Option (Nat × List Nat)
  | [] => none
  | b :: rest =>
      if b < 128 then some (b, rest)
      else
        match readVarint rest with
        | some (v, r) => some (b - 128 + 128 * v, r)
        | none => none

/-- Modelled from the spec: decode a whole byte list as a sequence of varints
(the uncompressed sizes stream is "a sequence of varints"). Fuel-indexed; each
varint consumes at least one byte, so fuel equal to the list length suffices. -/
def readVarintsF : Nat → List Nat → Option (List Nat)
  | _, [] => some []
  | 0, _ :: _ => none
  | fuel + 1, l =>
      match readVarint l with
      | none => none
      | some (v, r) =>
          match readVarintsF fuel r with
          | none => none
          | some vs => some (v :: vs)

/-- Decode a whole byte list as a sequence of varints. -/
def readVarints (l : List Nat) : Option (List Nat) :=
  readVarintsF l.length l

/-! ## Simple encoder (src/riegeli/chunk_encoding/simple_encoder.cc)

The encoder is modelled for `CompressionType::kNone`: per the spec
(section 4.3) the compressor with algorithm `none` "is a passthrough with no
framing", so the bytes written to `sizes_compressor_.writer()` and
`values_compressor_.writer()` are the bytes that `Compressor::EncodeAndClose`
later emits. The compression-type byte for `none` is 0 (spec section 6). The
compressor writers wrap chains and do not fail. -/

/-- Value of the maximum `uint64_t`, the record-count limit. -/
def uint64Max : Nat := 2 ^ 64 - 1

/-- Value of `std::numeric_limits<int>::max()`, the proto record size limit. -/
def intMax : Nat := 2 ^ 31 - 1

/-- State of a `SimpleEncoder` with compression type `none`: the `Object`
status, `num_records_`, and the bytes accumulated in the sizes and values
compressor writers. -/
structure SimpleEncoder where
  stat : ObjStatus
  numRecords : Nat
  sizesData : List Nat
  valuesData : List Nat
deriving DecidableEq

/-- Freshly constructed `SimpleEncoder` (compression type `none`). -/
def SimpleEncoder.init : SimpleEncoder :=
  { stat := .healthy, numRecords := 0, sizesData := [], valuesData := [] }

/-- Transition of a `SimpleEncoder` on `Object::Fail(message)`. -/
def SimpleEncoder.fail (message : String) (e : SimpleEncoder) : SimpleEncoder :=
  { e with stat := failObj message e.stat }

/-- Embedding of `SimpleEncoder::AddRecordImpl` (simple_encoder.cc lines
105-122): check `healthy()`, check the record-count limit, then write
`varint(record.size())` to the sizes compressor and the record bytes to the
values compressor. -/
def SimpleEncoder.addRecordImpl (record : List Nat) (e : SimpleEncoder) :
    Bool × SimpleEncoder :=
  if healthyB e.stat = false then (false, e)
  else if e.numRecords = uint64Max then (false, e.fail "Too many records")
  else
    (true,
      { e with
        numRecords := e.numRecords + 1,
        sizesData := e.sizesData ++ writeVarint64 record.length,
        valuesData := e.valuesData ++ record })

/-- Failure message built by `SimpleEncoder::AddRecord(MessageLite)` when the
serialized size exceeds `std::numeric_limits<int>::max()` (simple_encoder.cc
lines 68-72). -/
def protoSizeMessage (typeName : String) (size : Nat) : String :=
  "Failed to serialize message of type " ++ typeName ++
    " because it exceeds maximum protobuf size of 2GB: " ++ toString size

/-- Substring relation used to state that a failure message mentions the 2GB
maximum. -/
def mentions2GB (s : String) : Prop := "2GB".data <:+: s.data

/-- Failure message built by `SimpleEncoder::AddRecord(MessageLite)` when the
message is missing required fields (simple_encoder.cc lines 62-65). -/
def protoInitMessage (typeName : String) (errorString : String) : String :=
  "Failed to serialize message of type " ++ typeName ++
    " because it is missing required fields: " ++ errorString

/-- Embedding of `SimpleEncoder::AddRecord(const google::protobuf::MessageLite&)`
(simple_encoder.cc lines 59-87). The proto message is abstracted to its type
name, its initialization state and error string, and its serialized bytes
(`ByteSizeLong()` is their length; `SerializePartialToWriter` appends them). -/
def SimpleEncoder.addRecordProto (typeName : String) (initialized : Bool)
    (errorString : String) (serialized : List Nat) (e : SimpleEncoder) :
    Bool × SimpleEncoder :=
  if healthyB e.stat = false then (false, e)
  else if initialized = false then
    (false, e.fail (protoInitMessage typeName errorString))
  else if intMax < serialized.length then
    (false, e.fail (protoSizeMessage typeName serialized.length))
  else if e.numRecords = uint64Max then (false, e.fail "Too many records")
  else
    (true,
      { e with
        numRecords := e.numRecords + 1,
        sizesData := e.sizesData ++ writeVarint64 serialized.length,
        valuesData := e.valuesData ++ serialized })

/-- Helper for `SimpleEncoder.addRecords`: the varints of successive
differences of the sorted limit positions, as written by the loop in
simple_encoder.cc lines 134-147. -/
def sizeVarintsOfLimits (start : Nat) : List Nat → List Nat
  | [] => []
  | limit :: rest => writeVarint64 (limit - start) ++ sizeVarintsOfLimits limit rest

/-- Embedding of `SimpleEncoder::AddRecords(Chain records, vector<size_t> limits)`
(simple_encoder.cc lines 124-153): check `healthy()`, check that adding
`limits.size()` records does not overflow the `uint64_t` record count, then
write the varints of the record sizes and the concatenated record values. -/
def SimpleEncoder.addRecords (records : List Nat) (limits : List Nat)
    (e : SimpleEncoder) : Bool × SimpleEncoder :=
  if healthyB e.stat = false then (false, e)
  else if uint64Max - e.numRecords < limits.length then
    (false, e.fail "Too many records")
  else
    (true,
      { e with
        numRecords := e.numRecords + limits.length,
        sizesData := e.sizesData ++ sizeVarintsOfLimits 0 limits,
        valuesData := e.valuesData ++ records })

/-- Embedding of `SimpleEncoder::EncodeAndClose` (simple_encoder.cc lines
155-189) for compression type `none`: on success returns the chunk bytes —
one compression-type byte, `varint(compressed_sizes.size())`, the compressed
sizes bytes, then the compressed values bytes — together with the reported
`num_records` and `decoded_data_size`, and closes the encoder. -/
def SimpleEncoder.encodeAndClose (e : SimpleEncoder) :
    Option (List Nat × Nat × Nat) × SimpleEncoder :=
  if healthyB e.stat = false then (none, e)
  else if uint64Max < e.valuesData.length then
    (none, e.fail "Decoded data size too large")
  else
    (some
      ([0] ++ writeVarint64 e.sizesData.length ++ e.sizesData ++ e.valuesData,
        e.numRecords, e.valuesData.length),
      { e with stat := (closeObj [] e.stat).1, numRecords := 0 })

/-! ## Simple chunk decoding

Modelled from the spec: the simple decoder (simple_decoder.cc and the body of
`ChunkDecoder::Parse`) is not under src/. Spec section 4.4: "Read the
compression-type byte; decompress the sizes stream to recover per-record
lengths; decompress the values stream. Build a monotonically increasing
`limits` vector of record end-offsets within the values chain." Spec section 6
gives the layout `[compression_type: u8] [varint compressed_sizes_len]
[compressed_sizes] [compressed_values]`, compression byte 0 = none, and the
invariant that the sum of decoded lengths equals the values stream's length. -/

/-- Record end-offsets obtained by accumulating the per-record sizes. -/
def limitsOfSizes (start : Nat) : List Nat → List Nat
  | [] => []
  | s :: rest => (start + s) :: limitsOfSizes (start + s) rest

/-- Modelled from the spec: decode a simple chunk with compression type `none`
into its record end-offsets and its values stream; any other compression-type
byte fails (only `none` is modelled), as does a malformed sizes stream or a
sizes/values total mismatch. -/
def decodeSimpleChunk (bytes : List Nat) : Option (List Nat × List Nat) :=
  match bytes with
  | [] => none
  | c :: rest =>
      if c = 0 then
        match readVarint rest with
        | none => none
        | some (sizesLen, rest2) =>
            if rest2.length < sizesLen then none
            else
              match readVarints (rest2.take sizesLen) with
              | none => none
              | some sizes =>
                  let values := rest2.drop sizesLen
                  if sizes.sum = values.length then
                    some (limitsOfSizes 0 sizes, values)
                  else none
      else none

/-- Records of a decoded simple chunk: record `i` occupies the byte range
`[limits[i-1], limits[i])` of the values stream, with `limits[-1]` taken
as 0. -/
def recordsOfLimits (start : Nat) (values : List Nat) : List Nat → List (List Nat)
  | [] => []
  | limit :: rest =>
      ((values.drop start).take (limit - start)) :: recordsOfLimits limit values rest

/-! ## Chunk decoder (src/riegeli/chunk_encoding/chunk_decoder.h)

The in-memory state after a chunk has been parsed: the `limits_` vector of
record end-offsets, the `values_reader_` (embedded as the values bytes plus
the reader position), the `index_` cursor, `skip_errors_`, and
`skipped_records_`. The raw-bytes `ReadRecord` overloads and `SetIndex` are
inline in the header (in src/); `Reset`, `Reset(Chunk)`, `Done` and
`ReadRecord(MessageLite*)` live in chunk_decoder.cc, which is not under src/,
and are modelled from the spec and the header's documented invariants. -/

/-- State of a `ChunkDecoder`. -/
structure DecState where
  stat : ObjStatus
  skipErrors : Bool
  limits : List Nat
  values : List Nat
  pos : Nat
  index : Nat
  skipped : Nat
deriving DecidableEq

/-- Embedding of `ChunkDecoder::num_records()`: the size of `limits_`. -/
def DecState.numRecords (st : DecState) : Nat := st.limits.length

/-- Freshly constructed empty `ChunkDecoder` with the given `skip_errors`
option. -/
def DecState.init (skipErrors : Bool) : DecState :=
  { stat := .healthy, skipErrors := skipErrors, limits := [], values := [],
    pos := 0, index := 0, skipped := 0 }

/-- Embedding of the raw-bytes `ChunkDecoder::ReadRecord` overloads
(chunk_decoder.h lines 158-197; the `string_view`, `string` and `Chain`
overloads differ only in the output container): if `index_` equals
`num_records()` return false without touching the state, else read the bytes
between `values_reader_.pos()` and `limits_[index_]` and advance `index_`. -/
def DecState.readRecordRaw (st : DecState) : Bool × List Nat × DecState :=
  if st.index = st.limits.length then (false, [], st)
  else
    (true, (st.values.drop st.pos).take (st.limits.getD st.index 0 - st.pos),
      { st with pos := st.limits.getD st.index 0, index := st.index + 1 })

/-- Embedding of `ChunkDecoder::SetIndex` (chunk_decoder.h lines 199-207):
clamp the index to `num_records()` and seek the values reader to
`limits_[index_ - 1]` (0 when the index is 0). -/
def DecState.setIndex (k : Nat) (st : DecState) : DecState :=
  { st with
    index := min k st.limits.length,
    pos :=
      if min k st.limits.length = 0 then 0
      else st.limits.getD (min k st.limits.length - 1) 0 }

/-- Modelled from the spec: failure transition of the `ChunkDecoder`
(the failure paths live in chunk_decoder.cc, not under src/). The header
documents the invariants `index_ <= num_records()` and `if !healthy() then
index_ == num_records()`; the failure transition records the failure in the
`Object` status and resets the parsed chunk so that the documented invariants
hold for every later operation. -/
def DecState.failDec (message : String) (st : DecState) : DecState :=
  { st with
    stat := failObj message st.stat, limits := [], values := [],
    pos := 0, index := 0 }

/-- Modelled from the spec: `ChunkDecoder::Reset()` ("Resets the ChunkDecoder
to an empty chunk", chunk_decoder.h line 95), which marks the object healthy
and clears the parsed chunk. -/
def DecState.reset (st : DecState) : DecState :=
  { st with
    stat := .healthy, limits := [], values := [], pos := 0, index := 0,
    skipped := 0 }

/-- Modelled from the spec: `ChunkDecoder::Reset(const Chunk&)` (declared at
chunk_decoder.h lines 98-103, body in chunk_decoder.cc, not under src/),
specialised to simple chunks with compression `none`: reset, then parse the
chunk bytes; on success the limits and values are installed, on failure the
decoder fails regardless of `skip_errors` ("This affects ReadRecord() but not
Reset(Chunk) which still fails when the chunk cannot be decoded",
chunk_decoder.h lines 59-60). -/
def DecState.resetChunk (bytes : List Nat) (st : DecState) : Bool × DecState :=
  match decodeSimpleChunk bytes with
  | some (limits, values) =>
      (true, { st.reset with limits := limits, values := values })
  | none => (false, st.reset.failDec "Cannot decode chunk")

/-- Modelled from the spec: `ChunkDecoder::ReadRecord(MessageLite*)` (declared
at chunk_decoder.h line 120, body in chunk_decoder.cc, not under src/),
with the proto parser abstracted as a predicate on the record bytes.
Per the header documentation: it returns false when `!healthy()` on entry or
when the chunk ends; on a parse failure, when `skip_errors_` is false it fails
(the only overload that can generate a new failure), and when `skip_errors_`
is true it increments `skipped_records_` and skips to the next record.
Fuel-indexed; each iteration advances `index_`, so `num_records` fuel
suffices. -/
def DecState.readRecordMsgF (parse : List Nat → Bool) :
    Nat → DecState → Bool × DecState
  | 0, st => (false, st)
  | fuel + 1, st =>
      if healthyB st.stat = false then (false, st)
      else
        match st.readRecordRaw with
        | (false, _, _) => (false, st)
        | (true, record, st1) =>
            if parse record then (true, st1)
            else if st.skipErrors then
              DecState.readRecordMsgF parse fuel
                { st1 with skipped := st1.skipped + 1 }
            else (false, st1.failDec "Failed to parse message")

/-- Modelled from the spec: `ChunkDecoder::ReadRecord(MessageLite*)` with
enough fuel for the skip loop to reach the end of the chunk. -/
def DecState.readRecordMsg (parse : List Nat → Bool) (st : DecState) :
    Bool × DecState :=
  DecState.readRecordMsgF parse (st.limits.length + 1) st

/-- Modelled from the spec: `ChunkDecoder::Done()` (body in chunk_decoder.cc,
not under src/); it releases the parsed chunk, maintaining the documented
invariants when `Close()` leaves the object unhealthy. -/
def DecState.closeDec (dones : List String) (st : DecState) : DecState :=
  if closedB st.stat then { st with stat := (closeObj dones st.stat).1 }
  else
    { st with
      stat := (closeObj dones st.stat).1, limits := [], values := [],
      pos := 0, index := 0 }

/-- Operations on a `ChunkDecoder`. The proto parser of `readMsg` is
abstracted as a predicate on record bytes. -/
inductive DecOp where
  | readRaw
  | readMsg (parse : List Nat → Bool)
  | setIdx (k : Nat)
  | resetOp
  | resetChunkOp (bytes : List Nat)
  | closeOp (dones : List String)

/-- Single step of a `ChunkDecoder` under an operation. -/
def stepDec (st : DecState) : DecOp → DecState
  | .readRaw => st.readRecordRaw.2.2
  | .readMsg parse => (st.readRecordMsg parse).2
  | .setIdx k => st.setIndex k
  | .resetOp => st.reset
  | .resetChunkOp bytes => (st.resetChunk bytes).2
  | .closeOp dones => st.closeDec dones

/-- Run of a sequence of operations against a `ChunkDecoder`. -/
def runDec (ops : List DecOp) (st : DecState) : DecState :=
  ops.foldl stepDec st

/-- Documented invariant of `ChunkDecoder` (chunk_decoder.h lines 147-149):
`index_ <= num_records()`, and if `!healthy()` then
`index_ == num_records()`. -/
def DecInv (st : DecState) : Prop :=
  st.index ≤ st.numRecords ∧ (healthyB st.stat = false → st.index = st.numRecords)

instance (st : DecState) : Decidable (DecInv st) := by
  unfold DecInv; infer_instance

/-! ## Buffered stream window (src/riegeli/bytes/backward_writer.h)

The three buffer pointers `start_`, `cursor_`, `limit_` are embedded as
`Option Nat` addresses (`none` is `nullptr`). For `BackwardWriter`
(backward_writer.h, in src/) the window is backward: `start() >= cursor() >=
limit()`, `available() = PtrDistance(limit_, cursor_)`, `buffer_size() =
PtrDistance(limit_, start_)`, `written_to_buffer() = PtrDistance(cursor_,
start_)`, and `pos() = start_pos_ + written_to_buffer()`. For `Writer` and
`Reader` the window is forward; writer.h and reader.h are not under src/, so
the forward direction is modelled from the spec (section 4.2: "start ≤ cursor
≤ limit" with the same three-pointer window and mirrored semantics). One
parametric state covers the three stream classes via the `backward` flag. -/

/-- Distance between two optional pointers, a low address first:
`PtrDistance(a, b) = b - a` (base.h), with `nullptr` read as address 0. -/
def ptrDistance (a b : Option Nat) : Nat := b.getD 0 - a.getD 0

/-- Buffered stream state: the `Object` status, the three buffer pointers,
`start_pos_` (the destination position corresponding to `start_`), and the
window direction (`backward = true` embeds `BackwardWriter`). -/
structure Window where
  stat : ObjStatus
  start : Option Nat
  cursor : Option Nat
  limit : Option Nat
  startPos : Nat
  backward : Bool
deriving DecidableEq

/-- Embedding of `available()`: space between `cursor()` and `limit()`
(backward_writer.h line 72; mirrored for the forward streams). -/
def Window.available (w : Window) : Nat :=
  if w.backward then ptrDistance w.limit w.cursor else ptrDistance w.cursor w.limit

/-- Embedding of `buffer_size()`: space between `start()` and `limit()`
(backward_writer.h line 77; mirrored for the forward streams). -/
def Window.bufferSize (w : Window) : Nat :=
  if w.backward then ptrDistance w.limit w.start else ptrDistance w.start w.limit

/-- Embedding of `written_to_buffer()`: data between `start()` and `cursor()`
(backward_writer.h line 83; mirrored for the forward streams). -/
def Window.writtenToBuffer (w : Window) : Nat :=
  if w.backward then ptrDistance w.cursor w.start else ptrDistance w.start w.cursor

/-- Embedding of `pos()`: `start_pos_ + written_to_buffer()`
(backward_writer.h lines 262-268). -/
def Window.pos (w : Window) : Nat := w.startPos + w.writtenToBuffer

/-- Operations on a buffered stream that touch the window:
the fast path of `Write` (move `cursor_` by `n` when `n <= available()`),
`set_cursor`, a successful `PushSlow` installing a fresh buffer
`[base, base + size)`, a failing operation (`Object::Fail`; derived classes
restore the pointer invariant `start_ == cursor_ == limit_`), and `Close`
(whose `Done()` at backward_writer.h lines 190-195 nulls the pointers and
zeroes `start_pos_`). -/
inductive WinOp where
  | write (n : Nat)
  | setCursor (c : Nat)
  | push (base size : Nat)
  | failOp (message : String)
  | closeOp (dones : List String)
deriving DecidableEq

/-- Single step of a buffered stream window under an operation. The guards
mirror the preconditions in the source: the `Write` fast path fires only when
`n <= available()` (backward_writer.h lines 212-223), `set_cursor` requires
the new cursor to lie between `limit()` and `start()` (lines 202-210), a push
needs a live object, and `Close` runs `Done()` only when the object was not
already closed (object.cc lines 33-62). -/
def stepWin (w : Window) : WinOp → Window
  | .write n =>
      if healthyB w.stat && decide (n ≤ w.available) then
        { w with
          cursor :=
            if w.backward then w.cursor.map (fun c => c - n)
            else w.cursor.map (fun c => c + n) }
      else w
  | .setCursor c =>
      if healthyB w.stat &&
          (if w.backward then
            decide (w.limit.getD 0 ≤ c) && decide (c ≤ w.start.getD 0) &&
              w.cursor.isSome
          else
            decide (w.start.getD 0 ≤ c) && decide (c ≤ w.limit.getD 0) &&
              w.cursor.isSome) then
        { w with cursor := some c }
      else w
  | .push base size =>
      if healthyB w.stat then
        if w.backward then
          { w with
            start := some (base + size), cursor := some (base + size),
            limit := some base, startPos := w.pos }
        else
          { w with
            start := some base, cursor := some base,
            limit := some (base + size), startPos := w.pos }
      else w
  | .failOp message =>
      if closedB w.stat then w
      else
        { w with
          stat := failObj message w.stat, start := w.cursor, limit := w.cursor }
  | .closeOp dones =>
      if closedB w.stat then { w with stat := (closeObj dones w.stat).1 }
      else
        { w with
          stat := (closeObj dones w.stat).1, start := none, cursor := none,
          limit := none, startPos := 0 }

/-- Freshly constructed stream: healthy, null pointers, position 0. -/
def Window.init (backward : Bool) : Window :=
  { stat := .healthy, start := none, cursor := none, limit := none,
    startPos := 0, backward := backward }

/-- Run of a sequence of operations against a buffered stream window. -/
def runWin (ops : List WinOp) (w : Window) : Window :=
  ops.foldl stepWin w

/-- Documented pointer invariants of the buffered streams (backward_writer.h
lines 54-57, mirrored by the spec for `Writer` and `Reader`): the three
pointers are ordered (possibly all `nullptr`), all equal when the object is
not healthy, and all `nullptr` when the object is closed. -/
def WinInv (w : Window) : Prop :=
  (w.start.isSome = w.cursor.isSome ∧ w.cursor.isSome = w.limit.isSome) ∧
  (if w.backward then
    w.limit.getD 0 ≤ w.cursor.getD 0 ∧ w.cursor.getD 0 ≤ w.start.getD 0
  else
    w.start.getD 0 ≤ w.cursor.getD 0 ∧ w.cursor.getD 0 ≤ w.limit.getD 0) ∧
  (healthyB w.stat = false → w.start = w.cursor ∧ w.cursor = w.limit) ∧
  (closedB w.stat = true → w.start = none ∧ w.cursor = none ∧ w.limit = none)

instance (w : Window) : Decidable (WinInv w) := by
  unfold WinInv; infer_instance

/-! ## Byte sequences written by Writer and BackwardWriter
(src/riegeli/bytes/writer.cc, src/riegeli/bytes/backward_writer.h)

For claim C10 the observable of interest is the sequence of bytes a writer
appends (or prepends) to its destination. A writer is embedded as the bytes
already pushed downstream (`committed`), the bytes sitting in the buffer
window between `start_` and `cursor_` (`buf`), and the buffer capacity
(`cap`); `available() = cap - buf.length`. `PushSlow` is modelled as a
chain-writer-style push that always succeeds: it commits the buffer and
provides a fresh one of the same capacity. A `Chain` is embedded as its list
of blocks, each a byte list (`blocks()` iteration). -/

/-- Value of `kMaxBytesToCopy()`: threshold below which chain contents are
copied into the buffer rather than handed over structurally (spec section 4.1,
"typically 511 bytes"). -/
def kMaxBytesToCopy : Nat := 511

/-- Forward `Writer` abstracted to the byte sequence it writes. -/
structure WState where
  committed : List Nat
  buf : List Nat
  cap : Nat
deriving DecidableEq

/-- Space available in the buffer window of a forward writer. -/
def WState.avail (st : WState) : Nat := st.cap - st.buf.length

/-- Bytes appended to the destination so far (committed bytes followed by the
buffered bytes that a final push would commit). -/
def WState.bytes (st : WState) : List Nat := st.committed ++ st.buf

/-- Model of a successful `PushSlow`: commit the buffer downstream and point
the window at fresh space. -/
def WState.push (st : WState) : WState :=
  { committed := st.committed ++ st.buf, buf := [], cap := st.cap }

/-- Loop of `Writer::WriteSlow(string_view)` (writer.cc lines 31-49) after the
first push: while more bytes remain than are available, fill the buffer and
push; finally copy the rest into the buffer. Fuel-indexed; each iteration
consumes `available()` bytes. -/
def writeLoopW : Nat → List Nat → WState → WState
  | 0, s, st => { st with buf := st.buf ++ s }
  | fuel + 1, s, st =>
      if st.avail < s.length then
        writeLoopW fuel (s.drop st.avail) (WState.push { st with buf := st.buf ++ s.take st.avail })
      else { st with buf := st.buf ++ s }

/-- Embedding of `Writer::WriteSlow(absl::string_view)` (writer.cc lines
31-49): copy what fits (nothing when `available() == 0`, the `skip_copy`
entry), push, then loop. -/
def WState.writeSlowSV (s : List Nat) (st : WState) : WState :=
  writeLoopW s.length (s.drop st.avail) (WState.push { st with buf := st.buf ++ s.take st.avail })

/-- Embedding of `Writer::Write(absl::string_view)`: the fast path copies into
the buffer when the bytes fit in `available()`, otherwise `WriteSlow` runs
(fast path mirrored from `BackwardWriter::Write` at backward_writer.h lines
212-223; writer.h is not under src/). -/
def WState.writeSV (s : List Nat) (st : WState) : WState :=
  if s.length ≤ st.avail then { st with buf := st.buf ++ s } else st.writeSlowSV s

/-- Embedding of `Writer::WriteSlow(const Chain&)` (writer.cc lines 59-67):
write each block of the chain in order. `Writer::WriteSlow(Chain&&)` (lines
69-75) forwards here. -/
def WState.writeSlowChain (c : List (List Nat)) (st : WState) : WState :=
  c.foldl (fun acc b => acc.writeSV b) st

/-- Embedding of `Writer::Write(const Chain&)` (and `Write(Chain&&)`, which
has the same fast path): when the chain fits the window and is below
`kMaxBytesToCopy()` it is copied flat into the buffer, otherwise the slow path
processes it block by block (fast path mirrored from backward_writer.h lines
242-260; writer.h is not under src/). -/
def WState.writeChain (c : List (List Nat)) (st : WState) : WState :=
  if c.flatten.length ≤ st.avail ∧ c.flatten.length ≤ kMaxBytesToCopy then
    { st with buf := st.buf ++ c.flatten }
  else st.writeSlowChain c

/-- Backward `BackwardWriter` abstracted to the byte sequence it prepends.
Writes go back to front: later writes come earlier in the final output, and
pushed buffers are prepended in front of previously pushed data. -/
structure BWState where
  committed : List Nat
  buf : List Nat
  cap : Nat
deriving DecidableEq

/-- Space available in the buffer window of a backward writer. -/
def BWState.avail (st : BWState) : Nat := st.cap - st.buf.length

/-- Bytes prepended to the destination so far, in final output order. -/
def BWState.bytes (st : BWState) : List Nat := st.buf ++ st.committed

/-- Model of a successful backward `PushSlow`. -/
def BWState.push (st : BWState) : BWState :=
  { committed := st.buf ++ st.committed, buf := [], cap := st.cap }

/-- Modelled from the spec: loop of `BackwardWriter::WriteSlow(string_view)`
(backward_writer.cc is not under src/; the header states it is implemented in
terms of `Push()`, prepending suffixes of the data as space allows). -/
def writeLoopBW : Nat → List Nat → BWState → BWState
  | 0, s, st => { st with buf := s ++ st.buf }
  | fuel + 1, s, st =>
      if st.avail < s.length then
        writeLoopBW fuel (s.take (s.length - st.avail))
          (BWState.push { st with buf := s.drop (s.length - st.avail) ++ st.buf })
      else { st with buf := s ++ st.buf }

/-- Modelled from the spec: `BackwardWriter::WriteSlow(absl::string_view)`. -/
def BWState.writeSlowSV (s : List Nat) (st : BWState) : BWState :=
  writeLoopBW s.length (s.take (s.length - st.avail))
    (BWState.push { st with buf := s.drop (s.length - st.avail) ++ st.buf })

/-- Embedding of `BackwardWriter::Write(absl::string_view)` (backward_writer.h
lines 212-223): the fast path prepends into the buffer when the bytes fit in
`available()`, otherwise `WriteSlow` runs. -/
def BWState.writeSV (s : List Nat) (st : BWState) : BWState :=
  if s.length ≤ st.avail then { st with buf := s ++ st.buf } else st.writeSlowSV s

/-- Modelled from the spec: `BackwardWriter::WriteSlow(const Chain&)`
(backward_writer.cc is not under src/; the header states it is implemented in
terms of `WriteSlow(string_view)`, and prepending requires the blocks to be
written last block first). `WriteSlow(Chain&&)` forwards here. -/
def BWState.writeSlowChain (c : List (List Nat)) (st : BWState) : BWState :=
  c.reverse.foldl (fun acc b => acc.writeSV b) st

/-- Embedding of `BackwardWriter::Write(const Chain&)` (and `Write(Chain&&)`,
same fast path; backward_writer.h lines 242-260): when the chain fits the
window and is below `kMaxBytesToCopy()` it is copied flat into the buffer,
otherwise the slow path processes it block by block. -/
def BWState.writeChain (c : List (List Nat)) (st : BWState) : BWState :=
  if c.flatten.length ≤ st.avail ∧ c.flatten.length ≤ kMaxBytesToCopy then
    { st with buf := c.flatten ++ st.buf }
  else st.writeSlowChain c

/-! ## Theorems -/

/-- Running `Fail` calls leaves a failed status word unchanged: the
compare-exchange in `Object::Fail` only succeeds from `kHealthy()`. -/
theorem runFails_failed (dones : List String) (m : String) (c : Bool) :
    runFails dones (.failed m c) = .failed m c := by
  induction dones with
  | nil => rfl
  | cons d rest ih => simpa [runFails, failObj] using ih

/-- Running `Fail` calls from a healthy status leaves it healthy or failed,
never closed. -/
theorem runFails_healthy (dones : List String) :
    runFails dones .healthy = .healthy ∨
      ∃ m, runFails dones .healthy = .failed m false := by
  induction dones with
  | nil => exact Or.inl rfl
  | cons d rest ih =>
      right
      refine ⟨d, ?_⟩
      simpa [runFails, failObj] using runFails_failed rest d false

/-- Every operation maps a failed status word to a failed status word with the
same message. -/
theorem stepObj_failed (op : ObjOp) (m : String) (c : Bool) :
    ∃ c2, stepObj (.failed m c) op = .failed m c2 := by
  cases op with
  | fail m2 => exact ⟨c, rfl⟩
  | close dones =>
      cases c with
      | true => exact ⟨true, rfl⟩
      | false =>
          refine ⟨true, ?_⟩
          simp [stepObj, closeObj, runFails_failed]

/-- Runs of operations map a failed status word to a failed status word with
the same message. -/
theorem runObj_failed (ops : List ObjOp) (m : String) (c : Bool) :
    ∃ c2, runObj ops (.failed m c) = .failed m c2 := by
  induction ops generalizing c with
  | nil => exact ⟨c, rfl⟩
  | cons op rest ih =>
      obtain ⟨c1, h1⟩ := stepObj_failed op m c
      obtain ⟨c2, h2⟩ := ih c1
      exact ⟨c2, by simpa [runObj, h1] using h2⟩

/-- C2. Once `Object::Fail(message)` has moved the status word out of the
healthy state (to `FailedStatus(message)`), no later sequence of operations —
further `Fail` calls or `Close` — ever makes `healthy()` true again, and
`Message()` keeps returning the first failure's message unchanged (our run
covers arbitrary operation sequences, so the message is stable both before and
after `Close`). -/
theorem object_fail_monotonic (m : String) (ops : List ObjOp) :
    healthyB (runObj ops (failObj m .healthy)) = false ∧
      messageOf (runObj ops (failObj m .healthy)) = m := by
  obtain ⟨c2, h⟩ := runObj_failed ops m false
  rw [show failObj m .healthy = .failed m false from rfl, h]
  exact ⟨rfl, rfl⟩

/-- C3. `Object::Close()` is idempotent in every lifecycle state: the second
call performs no state transition and returns the same boolean as the first,
whatever `Fail` calls the virtual `Done()` of either call would perform (the
second call never runs `Done()`). -/
theorem object_close_idempotent (st : ObjStatus) (d1 d2 : List String) :
    closeObj d2 (closeObj d1 st).1 = closeObj d1 st := by
  cases st with
  | healthy =>
      rcases runFails_healthy d1 with h | ⟨m, h⟩ <;>
        simp [closeObj, h]
  | closedSuccessfully => simp [closeObj]
  | failed m c =>
      cases c with
      | true => simp [closeObj]
      | false => simp [closeObj, runFails_failed]

/-- C1. Simple codec with compression type `none` on the record sequence
["", "a", "bc"]: after the three `AddRecord` calls succeed, the uncompressed
sizes stream holds the varints of the record lengths in record order
(0x00 0x01 0x02) and the values stream holds the concatenation "abc";
`EncodeAndClose` emits exactly one compression-type byte (0), then
varint(compressed_sizes_len) = 0x03 followed by the sizes bytes, then the
values bytes, and reports `num_records` = 3 and `decoded_data_size` = 3;
decoding that chunk yields limits [0, 1, 3] and records ["", "a", "bc"]. -/
theorem simple_roundtrip_empty_a_bc :
    (SimpleEncoder.init.addRecordImpl []).1 = true ∧
    ((SimpleEncoder.init.addRecordImpl []).2.addRecordImpl [97]).1 = true ∧
    ((((SimpleEncoder.init.addRecordImpl []).2.addRecordImpl
        [97]).2.addRecordImpl [98, 99])).1 = true ∧
    (((SimpleEncoder.init.addRecordImpl []).2.addRecordImpl
        [97]).2.addRecordImpl [98, 99]).2.sizesData = [0, 1, 2] ∧
    (((SimpleEncoder.init.addRecordImpl []).2.addRecordImpl
        [97]).2.addRecordImpl [98, 99]).2.valuesData = [97, 98, 99] ∧
    ((((SimpleEncoder.init.addRecordImpl []).2.addRecordImpl
        [97]).2.addRecordImpl [98, 99]).2.encodeAndClose).1 =
      some ([0, 3, 0, 1, 2, 97, 98, 99], 3, 3) ∧
    decodeSimpleChunk [0, 3, 0, 1, 2, 97, 98, 99] =
      some ([0, 1, 3], [97, 98, 99]) ∧
    recordsOfLimits 0 [97, 98, 99] [0, 1, 3] = [[], [97], [98, 99]] := by
  decide

/-- C4. `SimpleEncoder` enforces the stated limits: an `AddRecord` on a proto
message whose serialized size exceeds 2^31 - 1 bytes returns false and fails
the encoder with a message mentioning the 2GB maximum; and an `AddRecord` (raw
or proto) or `AddRecords` call that would push the record count past 2^64 - 1
returns false and fails the encoder with the message "Too many records". -/
theorem simple_encoder_limits :
    (∀ (e : SimpleEncoder) (t es : String) (s : List Nat),
      healthyB e.stat = true → intMax < s.length →
      e.addRecordProto t true es s = (false, e.fail (protoSizeMessage t s.length)) ∧
      healthyB (e.fail (protoSizeMessage t s.length)).stat = false ∧
      mentions2GB (protoSizeMessage t s.length)) ∧
    (∀ (e : SimpleEncoder) (t es : String) (s : List Nat),
      healthyB e.stat = true → s.length ≤ intMax → e.numRecords = uint64Max →
      e.addRecordProto t true es s = (false, e.fail "Too many records") ∧
      healthyB (e.fail "Too many records").stat = false) ∧
    (∀ (e : SimpleEncoder) (r : List Nat),
      healthyB e.stat = true → e.numRecords = uint64Max →
      e.addRecordImpl r = (false, e.fail "Too many records") ∧
      healthyB (e.fail "Too many records").stat = false) ∧
    (∀ (e : SimpleEncoder) (records limits : List Nat),
      healthyB e.stat = true → uint64Max - e.numRecords < limits.length →
      e.addRecords records limits = (false, e.fail "Too many records") ∧
      healthyB (e.fail "Too many records").stat = false) := by
  have hhealthy : ∀ st : ObjStatus, healthyB st = true → st = .healthy := by
    intro st h
    cases st with
    | healthy => rfl
    | closedSuccessfully => simp [healthyB] at h
    | failed m c => simp [healthyB] at h
  refine ⟨?_, ?_, ?_, ?_⟩
  · intro e t es s hh hsize
    refine ⟨?_, ?_, ?_⟩
    · simp [SimpleEncoder.addRecordProto, hh, Nat.not_le_of_lt, hsize]
    · rw [SimpleEncoder.fail, hhealthy e.stat hh]
      rfl
    · refine ⟨("Failed to serialize message of type " ++ t ++
        " because it exceeds maximum protobuf size of ").data,
        (": " ++ toString s.length).data, ?_⟩
      simp [protoSizeMessage, String.data_append]
  · intro e t es s hh hsize hcount
    constructor
    · simp [SimpleEncoder.addRecordProto, hh, hcount, Nat.not_lt_of_le hsize]
    · rw [SimpleEncoder.fail, hhealthy e.stat hh]
      rfl
  · intro e r hh hcount
    constructor
    · simp [SimpleEncoder.addRecordImpl, hh, hcount]
    · rw [SimpleEncoder.fail, hhealthy e.stat hh]
      rfl
  · intro e records limits hh hcount
    constructor
    · simp [SimpleEncoder.addRecords, hh, hcount]
    · rw [SimpleEncoder.fail, hhealthy e.stat hh]
      rfl

/-- Witness for C4: the limit checks fire on concrete inputs — a proto record
of 2^31 bytes on a fresh encoder, and raw or batched records on an encoder
whose record count has reached 2^64 - 1. -/
theorem simple_encoder_limits_witness :
    (healthyB SimpleEncoder.init.stat = true ∧
      intMax < (List.replicate (intMax + 1) (0 : Nat)).length ∧
      SimpleEncoder.init.addRecordProto "T" true "" (List.replicate (intMax + 1) 0) =
        (false, SimpleEncoder.init.fail
          (protoSizeMessage "T" (List.replicate (intMax + 1) (0 : Nat)).length))) ∧
    ({ SimpleEncoder.init with numRecords := uint64Max }.numRecords = uint64Max ∧
      SimpleEncoder.addRecordImpl [7] { SimpleEncoder.init with numRecords := uint64Max } =
        (false, SimpleEncoder.fail "Too many records"
          { SimpleEncoder.init with numRecords := uint64Max })) ∧
    (uint64Max - { SimpleEncoder.init with numRecords := uint64Max }.numRecords <
        ([3] : List Nat).length ∧
      SimpleEncoder.addRecords [7, 8, 9] [3] { SimpleEncoder.init with numRecords := uint64Max } =
        (false, SimpleEncoder.fail "Too many records"
          { SimpleEncoder.init with numRecords := uint64Max })) := by
  refine ⟨⟨by decide, by simp, ?_⟩, ⟨by decide, ?_⟩, ⟨by decide, ?_⟩⟩
  · exact (simple_encoder_limits.1 SimpleEncoder.init "T" ""
      (List.replicate (intMax + 1) 0) (by decide) (by simp)).1
  · exact (simple_encoder_limits.2.2.1 { SimpleEncoder.init with numRecords := uint64Max }
      [7] (by decide) (by decide)).1
  · exact (simple_encoder_limits.2.2.2 { SimpleEncoder.init with numRecords := uint64Max }
      [7, 8, 9] [3] (by decide) (by decide)).1

/-- C5 counterexample. `pos()` is not monotonic over operation sequences: on a
`BackwardWriter` that obtained a buffer of 8 bytes and successfully prepended
5 bytes (`pos() = 5`), an operation that fails the writer restores the pointer
invariant `start_ == cursor_ == limit_`, after which `pos() = start_pos_ = 0 <
5` — exactly the behaviour documented at backward_writer.h lines 104-105
("This may decrease when the BackwardWriter becomes unhealthy"), so `pos()`
no longer equals the 5 bytes successfully prepended since construction. -/
theorem pos_not_monotonic_counterexample :
    (runWin [.push 0 8, .write 5, .failOp "push failed"] (Window.init true)).pos <
      (runWin [.push 0 8, .write 5] (Window.init true)).pos := by
  decide

/-- C5 amended. `pos() = start_pos_ + written_to_buffer()` is monotonic across
successful operations: a fast-path write of `n` bytes increases `pos()` by
exactly `n` (by 0 when the bytes do not fit the window and the fast path does
not fire), and a successful push leaves `pos()` unchanged. It is not monotonic
across failures: `pos()` may decrease when the writer becomes unhealthy
(buffered, unflushed data is lost), and it equals the byte count written since
construction only when `start_pos_` began at 0 (prepending to a destination
with existing contents starts at its position). This holds for the forward and
the backward window alike. -/
theorem pos_monotonic_amended (w : Window) (n base size : Nat)
    (hinv : WinInv w) (hh : healthyB w.stat = true) (hn : n ≤ w.available) :
    (stepWin w (.write n)).pos = w.pos + n ∧
      (stepWin w (.push base size)).pos = w.pos := by
  obtain ⟨stat, start, cursor, limit, startPos, backward⟩ := w
  obtain ⟨⟨hsc, hcl⟩, hord, hnh, hcd⟩ := hinv
  constructor
  · simp only [stepWin] at hh hn ⊢
    rw [hh]
    simp only [Bool.true_and, decide_eq_true_eq, if_pos hn]
    cases backward <;> cases cursor with
    | none =>
        cases limit with
        | some l => simp at hcl
        | none =>
            simp [Window.available, ptrDistance] at hn
            simp [Window.pos, Window.writtenToBuffer, ptrDistance]
            omega
    | some c =>
        cases limit with
        | none => simp at hcl
        | some l =>
            cases start with
            | none => simp at hsc
            | some s =>
                simp [Option.getD_some] at hord
                simp [Window.available, ptrDistance] at hn
                simp [Window.pos, Window.writtenToBuffer, ptrDistance]
                omega
  · cases backward <;>
      simp [stepWin, hh, Window.pos, Window.writtenToBuffer, ptrDistance]

/-- Witness for the amended C5: a healthy `BackwardWriter` with a window of 8
bytes of which 5 are written; a fast-path write of 2 bytes takes `pos()` from
5 to 7 and a push keeps it at 7. -/
theorem pos_monotonic_amended_witness :
    WinInv (runWin [.push 0 8, .write 5] (Window.init true)) ∧
      healthyB (runWin [.push 0 8, .write 5] (Window.init true)).stat = true ∧
      2 ≤ (runWin [.push 0 8, .write 5] (Window.init true)).available ∧
      (stepWin (runWin [.push 0 8, .write 5] (Window.init true)) (.write 2)).pos =
        (runWin [.push 0 8, .write 5] (Window.init true)).pos + 2 := by
  refine ⟨by decide, by decide, by decide, ?_⟩
  exact (pos_monotonic_amended (runWin [.push 0 8, .write 5] (Window.init true))
    2 0 8 (by decide) (by decide) (by decide)).1

/-- Status word with `healthy() = true` is the `kHealthy()` sentinel. -/
theorem healthy_of_healthyB {st : ObjStatus} (h : healthyB st = true) :
    st = .healthy := by
  cases st with
  | healthy => rfl
  | closedSuccessfully => simp [healthyB] at h
  | failed m c => simp [healthyB] at h

/-- `Object::Fail` does not change whether the object is closed. -/
theorem closedB_failObj (m : String) (st : ObjStatus) :
    closedB (failObj m st) = closedB st := by
  cases st <;> rfl

/-- `Object::Close` on an already closed object does not change the status. -/
theorem closeObj_closed_stat (dones : List String) {st : ObjStatus}
    (h : closedB st = true) : (closeObj dones st).1 = st := by
  cases st with
  | healthy => simp [closedB] at h
  | closedSuccessfully => rfl
  | failed m c =>
      cases c with
      | true => rfl
      | false => simp [closedB] at h

/-- A closed object is not healthy. -/
theorem healthyB_false_of_closedB {st : ObjStatus} (h : closedB st = true) :
    healthyB st = false := by
  cases st with
  | healthy => simp [closedB] at h
  | closedSuccessfully => rfl
  | failed m c => rfl

/-- The documented pointer invariants of the buffered streams are preserved by
every operation. -/
theorem winInv_step (w : Window) (op : WinOp) (h : WinInv w) :
    WinInv (stepWin w op) := by
  obtain ⟨stat, start, cursor, limit, startPos, backward⟩ := w
  obtain ⟨⟨hsc, hcl⟩, hord, hnh, hcd⟩ := h
  cases op with
  | write n =>
      simp only [stepWin]
      by_cases hg : (healthyB stat && decide (n ≤ Window.available
          ⟨stat, start, cursor, limit, startPos, backward⟩)) = true
      · obtain ⟨hh, hn⟩ := Bool.and_eq_true_iff.mp hg
        rw [if_pos hg]
        rw [healthy_of_healthyB hh] at hnh hcd ⊢
        refine ⟨⟨?_, ?_⟩, ?_, by simp [healthyB], by simp [closedB]⟩
        · cases backward <;> simp [hsc]
        · cases backward <;> simp [hcl]
        · rw [decide_eq_true_eq] at hn
          cases backward <;> cases cursor with
          | none => simpa using hord
          | some c =>
              cases limit with
              | none => simp at hcl
              | some l =>
                  cases start with
                  | none => simp at hsc
                  | some s =>
                      simp [Window.available, ptrDistance] at hn
                      simp [Option.getD_some] at hord ⊢
                      omega
      · rw [if_neg hg]
        exact ⟨⟨hsc, hcl⟩, hord, hnh, hcd⟩
  | setCursor c =>
      simp only [stepWin]
      by_cases hg : (healthyB stat &&
          (if backward then
            decide (limit.getD 0 ≤ c) && decide (c ≤ start.getD 0) && cursor.isSome
          else
            decide (start.getD 0 ≤ c) && decide (c ≤ limit.getD 0) && cursor.isSome)) = true
      · obtain ⟨hh, hb⟩ := Bool.and_eq_true_iff.mp hg
        rw [if_pos hg]
        rw [healthy_of_healthyB hh] at hnh hcd ⊢
        refine ⟨⟨?_, ?_⟩, ?_, by simp [healthyB], by simp [closedB]⟩
        · cases backward <;> simp_all
        · cases backward <;> simp_all
        · cases backward <;> simp_all
      · rw [if_neg hg]
        exact ⟨⟨hsc, hcl⟩, hord, hnh, hcd⟩
  | push base size =>
      simp only [stepWin]
      by_cases hh : healthyB stat = true
      · rw [if_pos hh]
        rw [healthy_of_healthyB hh] at hnh hcd ⊢
        cases backward <;>
          exact ⟨⟨rfl, rfl⟩, by simp [Option.getD_some],
            by simp [healthyB], by simp [closedB]⟩
      · rw [if_neg hh]
        exact ⟨⟨hsc, hcl⟩, hord, hnh, hcd⟩
  | failOp m =>
      simp only [stepWin]
      by_cases hc : closedB stat = true
      · rw [if_pos hc]
        exact ⟨⟨hsc, hcl⟩, hord, hnh, hcd⟩
      · rw [if_neg hc]
        refine ⟨⟨rfl, rfl⟩, ?_, fun _ => ⟨rfl, rfl⟩, fun h2 => ?_⟩
        · cases backward <;> simp
        · rw [closedB_failObj] at h2
          exact absurd h2 hc
  | closeOp dones =>
      simp only [stepWin]
      by_cases hc : closedB stat = true
      · rw [if_pos hc, closeObj_closed_stat dones hc]
        exact ⟨⟨hsc, hcl⟩, hord, hnh, hcd⟩
      · rw [if_neg hc]
        refine ⟨⟨rfl, rfl⟩, ?_, fun _ => ⟨rfl, rfl⟩, fun _ => ⟨rfl, rfl, rfl⟩⟩
        cases backward <;> simp

/-- The documented pointer invariants of the buffered streams hold after every
run of operations from a freshly constructed stream. -/
theorem winInv_run (ops : List WinOp) (w : Window) (h : WinInv w) :
    WinInv (runWin ops w) := by
  induction ops generalizing w with
  | nil => exact h
  | cons op rest ih => exact ih (stepWin w op) (winInv_step w op h)

/-- C6. For every byte stream (the `BackwardWriter` of backward_writer.h and
the forward `Writer`/`Reader` window it mirrors), in every state reachable by
a sequence of operations from construction: `written_to_buffer() +
available() == buffer_size()`; whenever the stream is not healthy all three
are zero; and whenever the stream is closed all three are zero and the
`start_`/`cursor_`/`limit_` pointers are null. -/
theorem stream_window_invariant (backward : Bool) (ops : List WinOp) :
    (runWin ops (Window.init backward)).writtenToBuffer +
        (runWin ops (Window.init backward)).available =
      (runWin ops (Window.init backward)).bufferSize ∧
    (healthyB (runWin ops (Window.init backward)).stat = false →
      (runWin ops (Window.init backward)).writtenToBuffer = 0 ∧
      (runWin ops (Window.init backward)).available = 0 ∧
      (runWin ops (Window.init backward)).bufferSize = 0) ∧
    (closedB (runWin ops (Window.init backward)).stat = true →
      ((runWin ops (Window.init backward)).writtenToBuffer = 0 ∧
        (runWin ops (Window.init backward)).available = 0 ∧
        (runWin ops (Window.init backward)).bufferSize = 0) ∧
      (runWin ops (Window.init backward)).start = none ∧
      (runWin ops (Window.init backward)).cursor = none ∧
      (runWin ops (Window.init backward)).limit = none) := by
  have hinv : WinInv (runWin ops (Window.init backward)) := by
    refine winInv_run ops (Window.init backward) ?_
    cases backward <;> exact (by decide)
  obtain ⟨⟨hsc, hcl⟩, hord, hnh, hcd⟩ := hinv
  set w := runWin ops (Window.init backward) with hw
  refine ⟨?_, ?_, ?_⟩
  · rcases hb : w.backward <;> simp [hb] at hord <;>
      simp [Window.writtenToBuffer, Window.available, Window.bufferSize,
        ptrDistance, hb] <;>
      omega
  · intro h2
    obtain ⟨h3, h4⟩ := hnh h2
    rcases hb : w.backward <;>
      simp [Window.writtenToBuffer, Window.available, Window.bufferSize,
        ptrDistance, hb, h3, h4]
  · intro h2
    obtain ⟨h5, h6, h7⟩ := hcd h2
    obtain ⟨h3, h4⟩ := hnh (healthyB_false_of_closedB h2)
    refine ⟨?_, h5, h6, h7⟩
    rcases hb : w.backward <;>
      simp [Window.writtenToBuffer, Window.available, Window.bufferSize,
        ptrDistance, hb, h5, h6, h7]

/-- Entries of a list sorted by `≤` are monotone in the index (stated with
`getD`, as the decoder reads `limits_` by index). -/
theorem sorted_getD_mono (l : List Nat) (h : l.Sorted (· ≤ ·)) (i j : Nat)
    (hij : i ≤ j) (hj : j < l.length) : l.getD i 0 ≤ l.getD j 0 := by
  have hi : i < l.length := Nat.lt_of_le_of_lt hij hj
  rw [List.getD_eq_getElem l 0 hi, List.getD_eq_getElem l 0 hj]
  have h2 := h.rel_get_of_le (a := ⟨i, hi⟩) (b := ⟨j, hj⟩) hij
  simpa [List.get_eq_getElem] using h2

/-- Entries of a list sorted by `≤` are bounded by the last entry. -/
theorem sorted_getD_le_getLast (l : List Nat) (h : l.Sorted (· ≤ ·)) (i : Nat)
    (hi : i < l.length) : l.getD i 0 ≤ l.getLast?.getD 0 := by
  have hpos : 0 < l.length := Nat.lt_of_le_of_lt (Nat.zero_le i) hi
  have hne : l ≠ [] := List.ne_nil_of_length_pos hpos
  rw [List.getLast?_eq_getLast l hne, List.getLast_eq_getElem]
  have h2 := sorted_getD_mono l h i (l.length - 1) (by omega) (by omega)
  rw [List.getD_eq_getElem l 0 (by omega), List.getD_eq_getElem l 0 (by omega)] at h2
  simpa [List.getD_eq_getElem l 0 hi, List.getElem?_eq_getElem hi] using h2

/-- C7. On a decoded chunk whose `limits_` are sorted and bounded by the
values size (the documented invariants), `SetIndex(k)` sets the index to
`min(k, num_records)` and seeks the values reader to `limits[index - 1]`
(0 when the index is 0); when `k < num_records`, the next raw `ReadRecord`
then succeeds and returns exactly the record occupying the byte range
`[limits[k-1], limits[k])` of the values stream (`limits[-1]` taken as 0),
whose length is `limits[k] - limits[k-1]`, leaving the decoder at index
`k + 1` with the values reader at `limits[k]`. -/
theorem setIndex_then_read (st : DecState) (k : Nat)
    (hsorted : st.limits.Sorted (· ≤ ·))
    (hsize : st.limits.getLast?.getD 0 = st.values.length) :
    (st.setIndex k).index = min k st.numRecords ∧
    (st.setIndex k).pos =
      (if min k st.numRecords = 0 then 0
       else st.limits.getD (min k st.numRecords - 1) 0) ∧
    (k < st.numRecords →
      (st.setIndex k).readRecordRaw =
        (true,
          (st.values.drop (if k = 0 then 0 else st.limits.getD (k - 1) 0)).take
            (st.limits.getD k 0 -
              (if k = 0 then 0 else st.limits.getD (k - 1) 0)),
          { st.setIndex k with pos := st.limits.getD k 0, index := k + 1 }) ∧
      (st.setIndex k).readRecordRaw.2.1.length =
        st.limits.getD k 0 - (if k = 0 then 0 else st.limits.getD (k - 1) 0)) := by
  refine ⟨rfl, rfl, fun hk => ?_⟩
  rw [DecState.numRecords] at hk
  have hmin : min k st.limits.length = k := Nat.min_eq_left (Nat.le_of_lt hk)
  have hread : (st.setIndex k).readRecordRaw =
      (true,
        (st.values.drop (if k = 0 then 0 else st.limits.getD (k - 1) 0)).take
          (st.limits.getD k 0 -
            (if k = 0 then 0 else st.limits.getD (k - 1) 0)),
        { st.setIndex k with pos := st.limits.getD k 0, index := k + 1 }) := by
    rw [DecState.readRecordRaw]
    simp only [DecState.setIndex, hmin]
    rw [if_neg (Nat.ne_of_lt hk)]
  refine ⟨hread, ?_⟩
  rw [hread]
  have hprev : (if k = 0 then 0 else st.limits.getD (k - 1) 0) ≤ st.limits.getD k 0 := by
    by_cases hz : k = 0
    · simp [hz]
    · rw [if_neg hz]
      exact sorted_getD_mono st.limits hsorted (k - 1) k (by omega) hk
  have hlast : st.limits.getD k 0 ≤ st.values.length := by
    rw [← hsize]
    exact sorted_getD_le_getLast st.limits hsorted k hk
  simp only [List.length_take, List.length_drop]
  omega

/-- Witness for C7: the decoded chunk of C1 (`limits = [0,1,3]`, values
"abc"), `SetIndex(2)` followed by `ReadRecord` returning "bc". -/
theorem setIndex_then_read_witness :
    (List.Sorted (· ≤ ·) [0, 1, 3] ∧
      ([0, 1, 3] : List Nat).getLast?.getD 0 = ([97, 98, 99] : List Nat).length) ∧
    (DecState.setIndex 2
        ⟨.healthy, false, [0, 1, 3], [97, 98, 99], 0, 0, 0⟩).index =
      min 2 (DecState.numRecords
        ⟨.healthy, false, [0, 1, 3], [97, 98, 99], 0, 0, 0⟩) := by
  refine ⟨⟨by decide, by decide⟩, ?_⟩
  exact (setIndex_then_read ⟨.healthy, false, [0, 1, 3], [97, 98, 99], 0, 0, 0⟩
    2 (by decide) (by decide)).1

/-- Shape of a successful raw `ReadRecord`: when the index has not reached
`num_records()`, it returns the bytes up to the next limit and advances. -/
theorem readRecordRaw_of_ne (st : DecState) (h : ¬ st.index = st.limits.length) :
    st.readRecordRaw =
      (true, (st.values.drop st.pos).take (st.limits.getD st.index 0 - st.pos),
        { st with pos := st.limits.getD st.index 0, index := st.index + 1 }) := by
  rw [DecState.readRecordRaw, if_neg h]

/-- Strengthened `ChunkDecoder` invariant used for the preservation proof: the
documented invariant, plus the fact that every failure path resets the parsed
chunk, so an unhealthy decoder holds no limits. -/
def DecInvStrong (st : DecState) : Prop :=
  DecInv st ∧ (healthyB st.stat = false → st.limits = [])

/-- A `ReadRecord(MessageLite*)` run preserves the strengthened decoder
invariant. -/
theorem readRecordMsgF_inv (parse : List Nat → Bool) (fuel : Nat)
    (st : DecState) (h : DecInvStrong st) :
    DecInvStrong (DecState.readRecordMsgF parse fuel st).2 := by
  induction fuel generalizing st with
  | zero => exact h
  | succ fuel ih =>
      rw [DecState.readRecordMsgF]
      by_cases hh : healthyB st.stat = false
      · rw [if_pos hh]
        exact h
      · rw [if_neg hh]
        by_cases hidx : st.index = st.limits.length
        · rw [DecState.readRecordRaw, if_pos hidx]
          exact h
        · simp only [readRecordRaw_of_ne st hidx]
          obtain ⟨⟨hle, hnh⟩, hemp⟩ := h
          rw [DecState.numRecords] at hle
          by_cases hp : parse ((st.values.drop st.pos).take
              (st.limits.getD st.index 0 - st.pos)) = true
          · rw [if_pos hp]
            refine ⟨⟨?_, fun h2 => absurd h2 hh⟩, fun h2 => absurd h2 hh⟩
            simp only [DecState.numRecords]
            omega
          · rw [if_neg hp]
            by_cases hs : st.skipErrors = true
            · rw [if_pos hs]
              refine ih _ ⟨⟨?_, fun h2 => absurd h2 hh⟩, fun h2 => absurd h2 hh⟩
              simp only [DecState.numRecords]
              omega
            · rw [if_neg hs]
              exact ⟨⟨Nat.le_refl 0, fun _ => rfl⟩, fun _ => rfl⟩

/-- When `skip_errors` is set, a `ReadRecord(MessageLite*)` run never touches
the `Object` status and only moves `skipped_records_` and `index_` upward. -/
theorem readRecordMsgF_skip (parse : List Nat → Bool) (fuel : Nat)
    (st : DecState) (hs : st.skipErrors = true) :
    (DecState.readRecordMsgF parse fuel st).2.stat = st.stat ∧
      st.skipped ≤ (DecState.readRecordMsgF parse fuel st).2.skipped ∧
      st.index ≤ (DecState.readRecordMsgF parse fuel st).2.index := by
  induction fuel generalizing st with
  | zero => exact ⟨rfl, Nat.le_refl _, Nat.le_refl _⟩
  | succ fuel ih =>
      rw [DecState.readRecordMsgF]
      by_cases hh : healthyB st.stat = false
      · rw [if_pos hh]
        exact ⟨rfl, Nat.le_refl _, Nat.le_refl _⟩
      · rw [if_neg hh]
        by_cases hidx : st.index = st.limits.length
        · rw [DecState.readRecordRaw, if_pos hidx]
          exact ⟨rfl, Nat.le_refl _, Nat.le_refl _⟩
        · simp only [readRecordRaw_of_ne st hidx]
          by_cases hp : parse ((st.values.drop st.pos).take
              (st.limits.getD st.index 0 - st.pos)) = true
          · rw [if_pos hp]
            exact ⟨rfl, Nat.le_refl _, Nat.le_succ _⟩
          · rw [if_neg hp, if_pos hs]
            obtain ⟨h1, h2, h3⟩ := ih
              ({ st with
                pos := st.limits.getD st.index 0,
                index := st.index + 1,
                skipped := st.skipped + 1 }) hs
            refine ⟨h1, Nat.le_trans (Nat.le_succ _) h2,
              Nat.le_trans (Nat.le_succ _) h3⟩

/-- Every operation preserves the strengthened decoder invariant. -/
theorem decInvStrong_step (st : DecState) (op : DecOp) (h : DecInvStrong st) :
    DecInvStrong (stepDec st op) := by
  obtain ⟨⟨hle, hnh⟩, hemp⟩ := h
  cases op with
  | readRaw =>
      simp only [stepDec]
      by_cases hidx : st.index = st.limits.length
      · rw [DecState.readRecordRaw, if_pos hidx]
        exact ⟨⟨hle, hnh⟩, hemp⟩
      · rw [readRecordRaw_of_ne st hidx]
        rw [DecState.numRecords] at hle
        refine ⟨⟨by simp only [DecState.numRecords]; omega, ?_⟩, ?_⟩
        · intro h2
          exact absurd (hnh h2) hidx
        · intro h2
          exact hemp h2
  | readMsg parse =>
      exact readRecordMsgF_inv parse _ st ⟨⟨hle, hnh⟩, hemp⟩
  | setIdx k =>
      refine ⟨⟨?_, ?_⟩, hemp⟩
      · simp [stepDec, DecState.setIndex, DecState.numRecords]
      · intro h2
        have h3 := hemp h2
        simp [stepDec, DecState.setIndex, DecState.numRecords, h3]
  | resetOp =>
      exact ⟨⟨Nat.le_refl 0, by simp [stepDec, DecState.reset, healthyB]⟩,
        by simp [stepDec, DecState.reset, healthyB]⟩
  | resetChunkOp bytes =>
      simp only [stepDec, DecState.resetChunk]
      cases decodeSimpleChunk bytes with
      | none =>
          exact ⟨⟨Nat.le_refl 0, fun _ => rfl⟩, fun _ => rfl⟩
      | some p =>
          exact ⟨⟨Nat.zero_le _, by simp [stepDec, DecState.reset, healthyB]⟩,
            by simp [stepDec, DecState.reset, healthyB]⟩
  | closeOp dones =>
      simp only [stepDec, DecState.closeDec]
      by_cases hc : closedB st.stat = true
      · rw [if_pos hc, closeObj_closed_stat dones hc]
        exact ⟨⟨hle, hnh⟩, hemp⟩
      · rw [if_neg hc]
        exact ⟨⟨Nat.le_refl 0, fun _ => rfl⟩, fun _ => rfl⟩

/-- Runs of operations preserve the strengthened decoder invariant. -/
theorem decInvStrong_run (ops : List DecOp) (st : DecState)
    (h : DecInvStrong st) : DecInvStrong (runDec ops st) := by
  induction ops generalizing st with
  | nil => exact h
  | cons op rest ih => exact ih (stepDec st op) (decInvStrong_step st op h)

/-- C9. `ChunkDecoder` maintains `index() <= num_records()` after every
operation sequence from construction, and whenever the decoder is not healthy
`index() == num_records()`; consequently a raw-bytes `ReadRecord` call made
when `index() == num_records()` returns false and leaves the whole state —
index, limits and values reader position — unchanged. -/
theorem chunk_decoder_index_invariant :
    (∀ (skipErrors : Bool) (ops : List DecOp),
      DecInv (runDec ops (DecState.init skipErrors))) ∧
    (∀ st : DecState, st.index = st.numRecords →
      st.readRecordRaw = (false, [], st)) := by
  constructor
  · intro skipErrors ops
    refine (decInvStrong_run ops (DecState.init skipErrors) ?_).1
    exact ⟨⟨Nat.le_refl 0, fun _ => rfl⟩, fun _ => rfl⟩
  · intro st h
    rw [DecState.numRecords] at h
    rw [DecState.readRecordRaw, if_pos h]

/-- Witness for C9: a freshly constructed decoder has
`index() == num_records()` and its raw `ReadRecord` returns false without
changing the state. -/
theorem chunk_decoder_index_invariant_witness :
    (DecState.init true).index = (DecState.init true).numRecords ∧
      (DecState.init true).readRecordRaw = (false, [], DecState.init true) := by
  exact ⟨rfl, chunk_decoder_index_invariant.2 (DecState.init true) rfl⟩

/-- C8. With `skip_errors` set, a per-record parse failure in
`ReadRecord(MessageLite*)` is recovered locally: `skipped_records` is
incremented and the index advances past the failed record while the decoder
stays healthy (the run never touches the `Object` status); the recovery
applies to `ReadRecord` but not to `Reset(Chunk)`, which still returns false
and fails the decoder when the chunk itself cannot be decoded, `skip_errors`
notwithstanding. -/
theorem skip_errors_recovery :
    (∀ (st : DecState) (parse : List Nat → Bool),
      st.skipErrors = true → healthyB st.stat = true →
      st.index < st.numRecords →
      parse ((st.values.drop st.pos).take
        (st.limits.getD st.index 0 - st.pos)) = false →
      healthyB (st.readRecordMsg parse).2.stat = true ∧
        st.skipped + 1 ≤ (st.readRecordMsg parse).2.skipped ∧
        st.index + 1 ≤ (st.readRecordMsg parse).2.index) ∧
    (∀ (st : DecState) (bytes : List Nat),
      st.skipErrors = true → decodeSimpleChunk bytes = none →
      (st.resetChunk bytes).1 = false ∧
        healthyB (st.resetChunk bytes).2.stat = false) := by
  constructor
  · intro st parse hs hh hk hp
    rw [DecState.numRecords] at hk
    have hidx : ¬ st.index = st.limits.length := Nat.ne_of_lt hk
    rw [DecState.readRecordMsg, DecState.readRecordMsgF]
    rw [if_neg (by simp [hh])]
    simp only [readRecordRaw_of_ne st hidx]
    have hp2 : parse (List.take (st.limits[st.index]?.getD 0 - st.pos)
        (List.drop st.pos st.values)) = false := by
      simpa [List.getD_eq_getElem?_getD] using hp
    rw [if_neg (by simp [hp2]), if_pos hs]
    obtain ⟨h1, h2, h3⟩ := readRecordMsgF_skip parse st.limits.length
      ({ st with
        pos := st.limits.getD st.index 0,
        index := st.index + 1,
        skipped := st.skipped + 1 }) hs
    exact ⟨by rw [h1]; exact hh, h2, h3⟩
  · intro st bytes hs hdec
    rw [DecState.resetChunk, hdec]
    exact ⟨rfl, rfl⟩

/-- Witness for C8: a decoder holding one record "0x07" with `skip_errors`
set and a parser that rejects everything skips the record and stays healthy;
resetting from the undecodable chunk bytes [9] fails the decoder. -/
theorem skip_errors_recovery_witness :
    ((⟨.healthy, true, [1], [7], 0, 0, 0⟩ : DecState).skipErrors = true ∧
      healthyB (⟨.healthy, true, [1], [7], 0, 0, 0⟩ : DecState).stat = true ∧
      (⟨.healthy, true, [1], [7], 0, 0, 0⟩ : DecState).index <
        (⟨.healthy, true, [1], [7], 0, 0, 0⟩ : DecState).numRecords ∧
      healthyB ((⟨.healthy, true, [1], [7], 0, 0, 0⟩ : DecState).readRecordMsg
        (fun _ => false)).2.stat = true) ∧
    (decodeSimpleChunk [9] = none ∧
      healthyB ((⟨.healthy, true, [1], [7], 0, 0, 0⟩ : DecState).resetChunk
        [9]).2.stat = false) := by
  refine ⟨⟨rfl, rfl, by decide, ?_⟩, ⟨rfl, ?_⟩⟩
  · exact (skip_errors_recovery.1 ⟨.healthy, true, [1], [7], 0, 0, 0⟩
      (fun _ => false) rfl rfl (by decide) rfl).1
  · exact (skip_errors_recovery.2 ⟨.healthy, true, [1], [7], 0, 0, 0⟩
      [9] rfl rfl).2

/-- The slow-path loop of `Writer::WriteSlow(string_view)` appends exactly the
given bytes, for any fuel. -/
theorem bytes_writeLoopW (fuel : Nat) (s : List Nat) (st : WState) :
    (writeLoopW fuel s st).bytes = st.bytes ++ s := by
  induction fuel generalizing s st with
  | zero => simp [writeLoopW, WState.bytes]
  | succ fuel ih =>
      rw [writeLoopW]
      by_cases hc : st.avail < s.length
      · rw [if_pos hc, ih]
        simp [WState.push, WState.bytes, List.append_assoc]
      · rw [if_neg hc]
        simp [WState.bytes]

/-- `Writer::WriteSlow(string_view)` appends exactly the given bytes. -/
theorem bytes_writeSlowSV (s : List Nat) (st : WState) :
    (st.writeSlowSV s).bytes = st.bytes ++ s := by
  rw [WState.writeSlowSV, bytes_writeLoopW]
  simp [WState.push, WState.bytes, List.append_assoc]

/-- `Writer::Write(string_view)` appends exactly the given bytes, on the fast
path and on the slow path alike. -/
theorem bytes_writeSV (s : List Nat) (st : WState) :
    (st.writeSV s).bytes = st.bytes ++ s := by
  rw [WState.writeSV]
  by_cases hc : s.length ≤ st.avail
  · rw [if_pos hc]
    simp [WState.bytes]
  · rw [if_neg hc]
    exact bytes_writeSlowSV s st

/-- `Writer::WriteSlow(const Chain&)` appends exactly the concatenation of the
chain's blocks. -/
theorem bytes_writeSlowChain (c : List (List Nat)) (st : WState) :
    (st.writeSlowChain c).bytes = st.bytes ++ c.flatten := by
  induction c generalizing st with
  | nil => simp [WState.writeSlowChain]
  | cons b rest ih =>
      have h1 : st.writeSlowChain (b :: rest) = (st.writeSV b).writeSlowChain rest := rfl
      rw [h1, ih, bytes_writeSV, List.flatten_cons, List.append_assoc]

/-- The backward slow-path loop prepends exactly the given bytes, for any
fuel. -/
theorem bytes_writeLoopBW (fuel : Nat) (s : List Nat) (st : BWState) :
    (writeLoopBW fuel s st).bytes = s ++ st.bytes := by
  induction fuel generalizing s st with
  | zero => simp [writeLoopBW, BWState.bytes]
  | succ fuel ih =>
      rw [writeLoopBW]
      by_cases hc : st.avail < s.length
      · rw [if_pos hc, ih]
        simp [BWState.push, BWState.bytes, ← List.append_assoc]
      · rw [if_neg hc]
        simp [BWState.bytes]

/-- `BackwardWriter::WriteSlow(string_view)` prepends exactly the given
bytes. -/
theorem bytes_bwWriteSlowSV (s : List Nat) (st : BWState) :
    (st.writeSlowSV s).bytes = s ++ st.bytes := by
  rw [BWState.writeSlowSV, bytes_writeLoopBW]
  simp [BWState.push, BWState.bytes, ← List.append_assoc]

/-- `BackwardWriter::Write(string_view)` prepends exactly the given bytes. -/
theorem bytes_bwWriteSV (s : List Nat) (st : BWState) :
    (st.writeSV s).bytes = s ++ st.bytes := by
  rw [BWState.writeSV]
  by_cases hc : s.length ≤ st.avail
  · rw [if_pos hc]
    simp [BWState.bytes]
  · rw [if_neg hc]
    exact bytes_bwWriteSlowSV s st

/-- Folding `BackwardWriter::Write(string_view)` over blocks prepends the
concatenation of the blocks in reverse order. -/
theorem bytes_bwFold (l : List (List Nat)) (st : BWState) :
    (l.foldl (fun acc b => acc.writeSV b) st).bytes =
      l.reverse.flatten ++ st.bytes := by
  induction l generalizing st with
  | nil => simp
  | cons b rest ih =>
      simp only [List.foldl_cons, List.reverse_cons, List.flatten_append]
      rw [ih, bytes_bwWriteSV]
      simp [List.append_assoc]

/-- C10. For the forward `Writer` and the `BackwardWriter` alike, `Write` of a
`Chain` (by const reference or moved, which share the embedded definition)
emits to the destination exactly the same byte sequence as `Write` of the flat
concatenation of the chain's blocks, whether the fast path copies the chain
into the buffer window or the slow path processes it block by block. -/
theorem write_chain_flat (st : WState) (bst : BWState) (c : List (List Nat)) :
    (st.writeChain c).bytes = (st.writeSV c.flatten).bytes ∧
      (bst.writeChain c).bytes = (bst.writeSV c.flatten).bytes := by
  constructor
  · rw [bytes_writeSV, WState.writeChain]
    by_cases hc : c.flatten.length ≤ st.avail ∧ c.flatten.length ≤ kMaxBytesToCopy
    · rw [if_pos hc]
      simp [WState.bytes]
    · rw [if_neg hc]
      exact bytes_writeSlowChain c st
  · rw [bytes_bwWriteSV, BWState.writeChain]
    by_cases hc : c.flatten.length ≤ bst.avail ∧ c.flatten.length ≤ kMaxBytesToCopy
    · rw [if_pos hc]
      simp [BWState.bytes]
    · rw [if_neg hc, BWState.writeSlowChain]
      rw [bytes_bwFold]
      simp

end Riegeli
